import Mathlib

/-!
# Verification of `MetaplaySDK/Scripts/udp-test-tool.py`

A shallow embedding of the UDP network-quality probe: the wire packet
codec, the receiver step, the windowed statistics analyzer
(`analyze_range`), the analyzer driver loop, and the handshake of
`test`.  Python dictionaries are modelled as association lists that
preserve insertion order (as Python 3.7+ dicts do); byte strings are
lists of naturals below 256; monotonic nanosecond timestamps are
integers; exact statistics are rationals (Python computes them in
floating point; the claims checked here concern values that are exact
in either arithmetic).
-/

namespace UdpTool

/-- A Python dict `id -> timestamp` in insertion order: the pair list
never repeats a key when produced by dict operations. -/
abbrev Buf := List (Int × Int)

/-- The keys of the dict, in insertion order (`list(d.keys())`). -/
def bufKeys (b : Buf) : List Int := b.map Prod.fst

/-- Python `d[k]` / `k in d`: first (unique) binding of the key. -/
def bufFind (b : Buf) (id : Int) : Option Int :=
  match b with
  | [] => none
  | (k, v) :: rest => if k = id then some v else bufFind rest id

/-- Python `d[k] = v`: replace the value in place if the key exists
(keeping its position in insertion order), otherwise append. -/
def bufInsert (b : Buf) (id : Int) (v : Int) : Buf :=
  if (bufKeys b).contains id then
    b.map (fun p => if p.1 = id then (p.1, v) else p)
  else
    b ++ [(id, v)]

/-! ## Packet codec

`udp-test-tool.py` builds outbound packets in `writer` (lines 130-133):
a zero-filled `bytearray(packet_len)`, bytes `[0:4]` set to the tag,
and `struct.pack_into("=l", buffer, 4, seq)`; `"=l"` is a fixed-width
4-byte signed integer in native (little-endian on the supported hosts)
byte order.  `reader` (lines 115-117) checks the length and the first
4 bytes and unpacks with `struct.unpack_from("=l", reply, 4)`. -/

/-- `b"ping"` as bytes. -/
def pingTag : List Nat := [112, 105, 110, 103]

/-- `b"pong"` as bytes. -/
def pongTag : List Nat := [112, 111, 110, 103]

/-- Python bytearray slice assignment `buf[off:off+len(vals)] = vals`
(for `off ≤ len buf`; extends the buffer when the tail is short). -/
def setSlice (buf : List Nat) (off : Nat) (vals : List Nat) : List Nat :=
  buf.take off ++ vals ++ buf.drop (off + vals.length)

/-- `struct.pack("=l", n)`: the 4 little-endian bytes of a signed
32-bit integer; defined for `-2^31 ≤ n < 2^31` (out of range raises). -/
def packInt32 (n : Int) : List Nat :=
  let m := (n % (2 ^ 32 : Int)).toNat
  [m % 256, m / 256 % 256, m / 2 ^ 16 % 256, m / 2 ^ 24 % 256]

/-- `struct.unpack_from("=l", bs, off)`: read 4 little-endian bytes at
`off` as a signed 32-bit integer; `none` models the `struct.error`
raised when fewer than 4 bytes remain. -/
def unpackInt32From (bs : List Nat) (off : Nat) : Option Int :=
  if off + 4 ≤ bs.length then
    let m : Nat := bs.getD off 0 + 256 * bs.getD (off + 1) 0
      + 2 ^ 16 * bs.getD (off + 2) 0 + 2 ^ 24 * bs.getD (off + 3) 0
    some (if m < 2 ^ 31 then (m : Int) else (m : Int) - 2 ^ 32)
  else none

/-- The writer's packet construction (lines 130-133), generalized over
the 4-byte tag constant: zero-filled buffer of `size` bytes, tag at
`[0:4]`, sequence id packed at offset 4.  `none` models the
`struct.error` raised when the buffer is too short for `pack_into` or
the id does not fit a signed 32-bit integer. -/
def encode (tag : List Nat) (seq : Int) (size : Nat) : Option (List Nat) :=
  let buffer := setSlice (List.replicate size 0) 0 tag
  if -2 ^ 31 ≤ seq ∧ seq < 2 ^ 31 ∧ 4 + 4 ≤ buffer.length then
    some (setSlice buffer 4 (packInt32 seq))
  else none

/-- The reader's validity check plus unpack as a codec-level decode
(lines 115-117): succeed exactly when the buffer has the expected size
and the expected 4-byte tag, yielding the sequence id. -/
def decode (buf : List Nat) (expectedTag : List Nat) (expectedSize : Nat) :
    Option Int :=
  if buf.length = expectedSize ∧ buf.take 4 = expectedTag then
    unpackInt32From buf 4
  else none

/-! ## Receiver step

`reader` (lines 110-120): on each datagram it takes the arrival
timestamp, prints "invalid response" when the length differs from
`packet_len` or the first four bytes are not `b"pong"`, and then -
unconditionally - unpacks the sequence id from bytes `[4:8]` and
stores `read_buf[seq] = reply_at`.  The unpack raises `struct.error`
on datagrams shorter than 8 bytes; the loop has no handler, so the
thread stops there. -/

/-- One iteration of the `reader` loop on a received datagram.  The
first component records whether "invalid response" was printed; the
second is `none` when `struct.unpack_from` raises (stopping the loop)
and otherwise the updated `read_buf`. -/
def readerStep (packetLen : Nat) (reply : List Nat) (replyAt : Int)
    (readBuf : Buf) : Bool × Option Buf :=
  let invalid : Bool := reply.length ≠ packetLen || reply.take 4 ≠ pongTag
  match unpackInt32From reply 4 with
  | none => (invalid, none)
  | some seq => (invalid, some (bufInsert readBuf seq replyAt))

/-! ## Window analyzer

`analyze_range` (lines 31-86) works on the analyzer's private
cumulative snapshot dicts `write_buf_copy` / `read_buf_copy`. -/

/-- Lines 32-36: the send-snapshot entries whose timestamp falls in
`[time_start, time_end)` (the loop skips `ts < time_start or
ts >= time_end`), in dict insertion order. -/
def pingInRange (write_buf : Buf) (tStart tEnd : Int) : Buf :=
  write_buf.filter (fun p => decide (tStart ≤ p.2) && decide (p.2 < tEnd))

/-- Lines 38-41: the matched entries
`(id, send_ts, read_buf[id], read_buf[id] - send_ts)`, in the order of
`ping_in_range`. -/
def pingPongInRange (write_buf read_buf : Buf) (tStart tEnd : Int) :
    List (Int × Int × Int × Int) :=
  (pingInRange write_buf tStart tEnd).filterMap (fun p =>
    match bufFind read_buf p.1 with
    | some rts => some (p.1, p.2, rts, rts - p.2)
    | none => none)

/-- Lines 46-52: count the adjacent pairs of `ping_pong_in_range`
whose ids occur inverted in `pong_id_order = list(read_buf.keys())`
(`pong_id_order.index(prec_id) > pong_id_order.index(succ_id)`). -/
def numReorders (matchedIds : List Int) (pongIdOrder : List Int) : Nat :=
  ((matchedIds.zip matchedIds.tail).filter (fun pq =>
    decide (pongIdOrder.indexOf pq.2 < pongIdOrder.indexOf pq.1))).length

/-- The matched durations `recv_ts - send_ts` in nanoseconds. -/
def durationsNs (matched : List (Int × Int × Int × Int)) : List Int :=
  matched.map (fun m => m.2.2.2)

/-- Lines 57-59: `sum(d / 1e6 for d) / len`, exact arithmetic; `none`
when the guard `len(ping_pong_in_range) > 0` fails ("n/a"). -/
def meanPingMs (matched : List (Int × Int × Int × Int)) : Option ℚ :=
  if matched.length > 0 then
    some (((durationsNs matched).map (fun (d : Int) => (d : ℚ) / 1000000)).sum
      / matched.length)
  else none

/-- Lines 60-61: `max(d / 1e6 for d)` when at least one sample. -/
def maxPingMs (matched : List (Int × Int × Int × Int)) : Option ℚ :=
  if matched.length > 0 then
    ((durationsNs matched).map (fun (d : Int) => (d : ℚ) / 1000000)).max?
  else none

/-- Lines 62-63: `min(d / 1e6 for d)` when at least one sample. -/
def minPingMs (matched : List (Int × Int × Int × Int)) : Option ℚ :=
  if matched.length > 0 then
    ((durationsNs matched).map (fun (d : Int) => (d : ℚ) / 1000000)).min?
  else none

/-- Lines 65-69: the square of the reported population standard
deviation, `sum(((d - mean_ns) / 1e6)^2 for d) / len` with
`mean_ns = sum(d) / len`, exact arithmetic; `none` when the guard
`len(ping_pong_in_range) > 1` fails ("n/a"). -/
def stddevSqPingMs (matched : List (Int × Int × Int × Int)) : Option ℚ :=
  if matched.length > 1 then
    let meanNs : ℚ :=
      ((durationsNs matched).map (fun (d : Int) => (d : ℚ))).sum / matched.length
    some (((durationsNs matched).map
      (fun (d : Int) => (((d : ℚ) - meanNs) / 1000000) ^ 2)).sum / matched.length)
  else none

/-- Lines 72-77 and 79-84: collect the ids with `ts < time_end`, then
delete them from the dict. -/
def cleanupBuf (buf : Buf) (tEnd : Int) : Buf :=
  let toClean := (buf.filter (fun p => decide (p.2 < tEnd))).map Prod.fst
  buf.filter (fun p => !toClean.contains p.1)

/-- The tuple returned by `analyze_range` (line 86) together with the
state of the two snapshot dicts after the in-place cleanup.  The two
"n/a"-able millisecond statistics are exact rationals; the standard
deviation is reported through its square. -/
structure AnalyzeResult where
  num_sent : Nat
  num_lost : Nat
  mean_ping : Option ℚ
  min_ping : Option ℚ
  max_ping : Option ℚ
  stddev_sq_ping : Option ℚ
  num_reorders : Nat
  write_buf : Buf
  read_buf : Buf
  deriving Repr, DecidableEq

/-- `analyze_range(write_buf, read_buf, time_start, time_end)`
(lines 31-86). -/
def analyze_range (write_buf read_buf : Buf) (tStart tEnd : Int) :
    AnalyzeResult :=
  let matched := pingPongInRange write_buf read_buf tStart tEnd
  { num_sent := (pingInRange write_buf tStart tEnd).length
    num_lost := (pingInRange write_buf tStart tEnd).length - matched.length
    mean_ping := meanPingMs matched
    min_ping := minPingMs matched
    max_ping := maxPingMs matched
    stddev_sq_ping := stddevSqPingMs matched
    num_reorders := numReorders (matched.map (fun m => m.1)) (bufKeys read_buf)
    write_buf := cleanupBuf write_buf tEnd
    read_buf := cleanupBuf read_buf tEnd }

/-- Line 178: the monotonic start of analysis window `k`,
`start_at + analyzed_second * 1_000_000_000`. -/
def windowStart (startAt : Int) (k : Nat) : Int :=
  startAt + k * 1000000000

/-! ## Analyzer driver loop and process exit

`test` (lines 89-198): the handshake, then `try: while True: ...`
around the analysis cycles, where only `KeyboardInterrupt` is caught
(`except KeyboardInterrupt: pass`); the summary line and `os._exit(0)`
run after the `try` statement, so an uncaught exception inside a cycle
skips them and terminates the process abnormally. -/

/-- What one iteration of the analyzer `while` body does once a
complete second is available: either an `analyze_range` cycle finishes
normally with its window totals, or some statement of the cycle raises
an exception, or a `KeyboardInterrupt` arrives. -/
inductive CycleOutcome where
  | ok (sent lost reorders : Nat)
  | error
  | interrupt
  deriving Repr, DecidableEq

/-- The loop-carried accumulators of `test` (lines 153-158). -/
structure LoopState where
  analyzed_second : Nat
  total_sent : Nat
  total_lost : Nat
  total_reorders : Nat
  deriving Repr, DecidableEq

/-- How control leaves the `while True` loop. -/
inductive LoopExit where
  | limitReached
  | interrupted
  | uncaughtError
  | stillRunning
  deriving Repr, DecidableEq

/-- The `try: while True: ...` of lines 160-195 over a finite trace of
cycle outcomes: a `KeyboardInterrupt` is caught and ends the loop
normally; any other exception propagates out of the `try`
(`uncaughtError`); a normal cycle prints one report line, accumulates
the totals, advances `analyzed_second` and breaks once the optional
`test_limit` is reached. -/
def analyzerLoop (limit : Option Nat) (st : LoopState) :
    List CycleOutcome → LoopState × LoopExit
  | [] => (st, .stillRunning)
  | .interrupt :: _ => (st, .interrupted)
  | .error :: _ => (st, .uncaughtError)
  | .ok sent lost reorders :: rest =>
    let st' : LoopState :=
      { analyzed_second := st.analyzed_second + 1
        total_sent := st.total_sent + sent
        total_lost := st.total_lost + lost
        total_reorders := st.total_reorders + reorders }
    match limit with
    | some l =>
      if st'.analyzed_second ≥ l then (st', .limitReached)
      else analyzerLoop limit st' rest
    | none => analyzerLoop limit st' rest

/-- How the process terminates: `sys.exit(n)` / `os._exit(n)` with an
exit code, or an uncaught exception (abnormal termination with a
traceback, exit status 1 set by the interpreter, not by the tool). -/
inductive ProcExit where
  | code (n : Nat)
  | uncaught
  deriving Repr, DecidableEq

/-- Lines 194-198 after the loop: both a caught `KeyboardInterrupt`
and reaching the limit print the summary and call `os._exit(0)`; an
uncaught exception propagates instead. -/
def loopProcExit : LoopExit → Option ProcExit
  | .limitReached => some (.code 0)
  | .interrupted => some (.code 0)
  | .uncaughtError => some .uncaught
  | .stillRunning => none

/-- True iff the byte is a UTF-8 continuation byte `10xxxxxx`. -/
def isCont (c : Nat) : Bool := 128 ≤ c && c < 192

/-- Python `bytes.decode("utf-8")` (strict): the list of decoded code
points, or `none` on a `UnicodeDecodeError` (invalid start byte,
truncated sequence, bad continuation byte, overlong form, surrogate,
or code point above `0x10FFFF`). -/
def utf8Decode : List Nat → Option (List Nat)
  | [] => some []
  | b :: rest =>
    if b < 128 then (utf8Decode rest).map (fun t => b :: t)
    else if 194 ≤ b && b ≤ 223 then
      match rest with
      | c1 :: r =>
        if isCont c1 then
          (utf8Decode r).map (fun t => ((b - 192) * 64 + (c1 - 128)) :: t)
        else none
      | [] => none
    else if 224 ≤ b && b ≤ 239 then
      match rest with
      | c1 :: c2 :: r =>
        if isCont c1 && isCont c2 && (b ≠ 224 || 160 ≤ c1)
            && (b ≠ 237 || c1 < 160) then
          (utf8Decode r).map (fun t =>
            ((b - 224) * 4096 + (c1 - 128) * 64 + (c2 - 128)) :: t)
        else none
      | _ => none
    else if 240 ≤ b && b ≤ 244 then
      match rest with
      | c1 :: c2 :: c3 :: r =>
        if isCont c1 && isCont c2 && isCont c3 && (b ≠ 240 || 144 ≤ c1)
            && (b ≠ 244 || c1 < 144) then
          (utf8Decode r).map (fun t =>
            ((b - 240) * 262144 + (c1 - 128) * 4096 + (c2 - 128) * 64
              + (c3 - 128)) :: t)
        else none
      | _ => none
    else none

/-- The code points of `"ponghelo"` (all ASCII). -/
def pongheloCodepoints : List Nat := [112, 111, 110, 103, 104, 101, 108, 111]

/-- The handshake of `test` (lines 92-98).  `reply = none` models the
`socket.timeout` from `ask_raw` (caught: print and `sys.exit(2)`);
bytes that fail UTF-8 decoding raise a `UnicodeDecodeError` that the
`except socket.timeout` clause does not catch; a decoded reply other
than `"ponghelo"` yields `sys.exit(3)`.  `none` means the handshake
succeeded and `test` goes on to start the reader and writer. -/
def handshake (reply : Option (List Nat)) : Option ProcExit :=
  match reply with
  | none => some (.code 2)
  | some bs =>
    match utf8Decode bs with
    | none => some .uncaught
    | some cps =>
      if cps = pongheloCodepoints then none else some (.code 3)

/-- `test` (lines 89-198) at claim level: the number of window report
lines printed and how the process terminates.  On a handshake failure
the function exits before the reader and writer threads start, with
zero reports printed; otherwise each completed cycle prints exactly
one report line before `analyzed_second` is advanced. -/
def testRun (reply : Option (List Nat)) (limit : Option Nat)
    (cycles : List CycleOutcome) : Nat × Option ProcExit :=
  match handshake reply with
  | some e => (0, some e)
  | none =>
    let r := analyzerLoop limit ⟨0, 0, 0, 0⟩ cycles
    (r.1.analyzed_second, loopProcExit r.2)

/-! ## Spec-side formulations

Independent restatements of the analyzer's counting, written from the
spec's wording, to be compared with the embedded code. -/

/-- The send entries of a snapshot whose timestamp lies in the window
`[s, e)` ("the number of send entries with timestamp in [start, end)"). -/
def sentInWindow (wb : Buf) (s e : Int) : Buf :=
  wb.filter (fun p => decide (s ≤ p.2 ∧ p.2 < e))

/-- The window's send entries whose id also appears in the receive
snapshot. -/
def matchedInWindow (wb rb : Buf) (s e : Int) : Buf :=
  (sentInWindow wb s e).filter (fun p => (bufKeys rb).contains p.1)

/-- The window's send entries whose id does not appear in the receive
snapshot: the packets the window counts as lost. -/
def lostInWindow (wb rb : Buf) (s e : Int) : Buf :=
  (sentInWindow wb s e).filter (fun p => !(bufKeys rb).contains p.1)

/-- Modelled from the spec: the reorder metric as worded there - the
number of adjacent pairs in the send-order list of matched ids whose
positions in the global arrival-insertion order are inverted (the
earlier-sent id appears after the later-sent id). -/
def specReorderCount (sendOrderIds arrivalOrder : List Int) : Nat :=
  ((sendOrderIds.zip sendOrderIds.tail).filter (fun pq =>
    decide (arrivalOrder.indexOf pq.1 > arrivalOrder.indexOf pq.2))).length

/-! ## Dictionary lemmas -/

theorem bufFind_cons (k v id : Int) (rest : Buf) :
    bufFind ((k, v) :: rest) id = if k = id then some v else bufFind rest id :=
  rfl

theorem bufKeys_cons (k v : Int) (rest : Buf) :
    bufKeys ((k, v) :: rest) = k :: bufKeys rest :=
  rfl

theorem bufFind_eq_none_iff (b : Buf) (id : Int) :
    bufFind b id = none ↔ id ∉ bufKeys b := by
  induction b with
  | nil => simp [bufFind, bufKeys]
  | cons p rest ih =>
    obtain ⟨k, v⟩ := p
    rw [bufFind_cons, bufKeys_cons, List.mem_cons]
    by_cases hk : k = id
    · subst hk; simp
    · rw [if_neg hk, ih]
      constructor
      · intro h hor
        rcases hor with h1 | h2
        · exact hk h1.symm
        · exact h h2
      · intro h h2
        exact h (Or.inr h2)

theorem bufFind_isSome_iff (b : Buf) (id : Int) :
    (bufFind b id).isSome = true ↔ id ∈ bufKeys b := by
  simp [Option.isSome_iff_ne_none, bufFind_eq_none_iff]

theorem bufFind_append_single (b : Buf) (id v : Int) (h : id ∉ bufKeys b) :
    bufFind (b ++ [(id, v)]) id = some v := by
  induction b with
  | nil => simp [bufFind]
  | cons p rest ih =>
    obtain ⟨k, w⟩ := p
    rw [bufKeys_cons, List.mem_cons] at h
    rw [List.cons_append, bufFind_cons,
      if_neg (fun hk => h (Or.inl hk.symm))]
    exact ih (fun h2 => h (Or.inr h2))

theorem bufFind_map_replace (b : Buf) (id v : Int) :
    bufFind (b.map (fun p => if p.1 = id then (p.1, v) else p)) id
      = (bufFind b id).map (fun _ => v) := by
  induction b with
  | nil => simp [bufFind]
  | cons p rest ih =>
    obtain ⟨k, w⟩ := p
    rw [List.map_cons]
    by_cases hk : k = id
    · subst hk
      simp [bufFind_cons]
    · rw [if_neg (show ¬((k, w) : Int × Int).1 = id from hk), bufFind_cons,
        bufFind_cons, if_neg hk, if_neg hk]
      exact ih

theorem bufFind_bufInsert_self (b : Buf) (id v : Int) :
    bufFind (bufInsert b id v) id = some v := by
  unfold bufInsert
  by_cases hc : id ∈ bufKeys b
  · rw [if_pos (by simpa using hc), bufFind_map_replace]
    obtain ⟨w, hw⟩ := Option.isSome_iff_exists.mp ((bufFind_isSome_iff b id).mpr hc)
    simp [hw]
  · rw [if_neg (by simpa using hc)]
    exact bufFind_append_single b id v hc

theorem bufFind_map_replace_ne (b : Buf) (id v id' : Int) (h : id' ≠ id) :
    bufFind (b.map (fun p => if p.1 = id then (p.1, v) else p)) id'
      = bufFind b id' := by
  induction b with
  | nil => simp [bufFind]
  | cons p rest ih =>
    obtain ⟨k, w⟩ := p
    rw [List.map_cons]
    by_cases hk : k = id
    · rw [if_pos (show ((k, w) : Int × Int).1 = id from hk), bufFind_cons,
        bufFind_cons, if_neg (hk ▸ fun hki => h hki.symm),
        if_neg (hk ▸ fun hki => h hki.symm)]
      exact ih
    · rw [if_neg (show ¬((k, w) : Int × Int).1 = id from hk), bufFind_cons,
        bufFind_cons]
      by_cases hk' : k = id'
      · rw [if_pos hk', if_pos hk']
      · rw [if_neg hk', if_neg hk']
        exact ih

theorem bufFind_append_single_ne (b : Buf) (id v id' : Int) (h : id' ≠ id) :
    bufFind (b ++ [(id, v)]) id' = bufFind b id' := by
  induction b with
  | nil =>
    rw [List.nil_append, bufFind_cons, if_neg (fun hk => h hk.symm)]
  | cons p rest ih =>
    obtain ⟨k, w⟩ := p
    rw [List.cons_append, bufFind_cons, bufFind_cons]
    by_cases hk : k = id'
    · rw [if_pos hk, if_pos hk]
    · rw [if_neg hk, if_neg hk]
      exact ih

theorem bufFind_bufInsert_ne (b : Buf) (id v id' : Int) (h : id' ≠ id) :
    bufFind (bufInsert b id v) id' = bufFind b id' := by
  unfold bufInsert
  split
  · exact bufFind_map_replace_ne b id v id' h
  · exact bufFind_append_single_ne b id v id' h

/-! ## Claims about the receiver -/

/-- **C1** (code bug): the claim says an invalid datagram (wrong
length or wrong tag) is logged and discarded "without modifying the
receive store".  In the code the `print("invalid response")` is not
followed by a `continue`, so the packet is stored anyway.  With
`packet_len = 12`, a 12-byte datagram tagged `"xong"` carrying
sequence id 7, arriving at time 999 into an empty store: the step
reports the invalid response (first component `true`) yet the store
gains the entry `(7, 999)` - it is not what it was before. -/
theorem reader_stores_invalid_packet :
    readerStep 12 ([120, 111, 110, 103] ++ [7, 0, 0, 0] ++ [0, 0, 0, 0]) 999 []
        = (true, some [(7, 999)]) ∧
      some [((7 : Int), (999 : Int))] ≠ some ([] : Buf) := by
  constructor
  · rfl
  · simp

/-- **C2** (counterexample): the claim says a later valid `"pong"`
datagram carrying an already-stored sequence id leaves the existing
entry unchanged (first write wins).  With `packet_len = 12` and an
existing entry `(0, 100)`, a valid pong for seq 0 arriving at 200
yields the store `[(0, 200)]`: the arrival timestamp of the existing
entry has been overwritten. -/
theorem reader_duplicate_overwrites :
    (readerStep 12 ([112, 111, 110, 103] ++ [0, 0, 0, 0] ++ [0, 0, 0, 0]) 200
        [(0, 100)]).2 = some [(0, 200)] ∧
      bufFind [((0 : Int), (200 : Int))] 0 ≠ some 100 := by
  constructor
  · rfl
  · simp [bufFind]

/-- **C2** (amended): duplicate sequence ids overwrite - last write
wins.  Whenever the unpack of bytes `[4:8]` yields `seq` (any datagram
of length ≥ 8, valid or not), the reader stores
`read_buf[seq] = reply_at`: afterwards the entry for `seq` holds the
new arrival time, and every other id's entry is unchanged. -/
theorem reader_last_write_wins (packetLen : Nat) (reply : List Nat)
    (replyAt : Int) (buf : Buf) (seq : Int)
    (h : unpackInt32From reply 4 = some seq) :
    (readerStep packetLen reply replyAt buf).2 = some (bufInsert buf seq replyAt) ∧
      bufFind (bufInsert buf seq replyAt) seq = some replyAt ∧
      ∀ id, id ≠ seq → bufFind (bufInsert buf seq replyAt) id = bufFind buf id := by
  refine ⟨by simp [readerStep, h], bufFind_bufInsert_self buf seq replyAt,
    fun id hid => bufFind_bufInsert_ne buf seq replyAt id hid⟩

/-- Witness for `reader_last_write_wins` at the concrete duplicate of
`reader_duplicate_overwrites`. -/
theorem reader_last_write_wins_witness :
    (readerStep 12 ([112, 111, 110, 103] ++ [0, 0, 0, 0] ++ [0, 0, 0, 0]) 200
        [(0, 100)]).2 = some (bufInsert [(0, 100)] 0 200) ∧
      bufFind (bufInsert [(0, 100)] 0 200) 0 = some 200 ∧
      ∀ id, id ≠ 0 → bufFind (bufInsert [(0, 100)] 0 200) id = bufFind [(0, 100)] id :=
  reader_last_write_wins 12 ([112, 111, 110, 103] ++ [0, 0, 0, 0] ++ [0, 0, 0, 0])
    200 [(0, 100)] 0 (by decide)

/-- **C10**: a datagram shorter than 8 bytes makes
`struct.unpack_from("=l", reply, 4)` raise, which the reader loop does
not catch, so the loop stops (`none`); a datagram of length ≥ 8 is
always processed without raising (`some` updated store). -/
theorem reader_short_datagram_raises (packetLen : Nat) (reply : List Nat)
    (replyAt : Int) (buf : Buf) :
    (reply.length < 8 → (readerStep packetLen reply replyAt buf).2 = none) ∧
      (8 ≤ reply.length →
        ∃ buf', (readerStep packetLen reply replyAt buf).2 = some buf') := by
  constructor
  · intro h
    have hu : unpackInt32From reply 4 = none := by
      unfold unpackInt32From
      rw [if_neg (by omega)]
    simp [readerStep, hu]
  · intro h
    rcases hs : unpackInt32From reply 4 with _ | seq
    · exfalso
      unfold unpackInt32From at hs
      rw [if_pos (by omega)] at hs
      exact Option.noConfusion hs
    · exact ⟨bufInsert buf seq replyAt, by simp [readerStep, hs]⟩

/-- Witness for `reader_short_datagram_raises`: the 3-byte datagram
`[1, 2, 3]` stops the loop, and an 8-byte datagram is processed. -/
theorem reader_short_datagram_raises_witness :
    ((([1, 2, 3] : List Nat).length < 8 →
        (readerStep 12 [1, 2, 3] 5 []).2 = none) ∧
      (8 ≤ ([1, 2, 3] : List Nat).length →
        ∃ buf', (readerStep 12 [1, 2, 3] 5 []).2 = some buf')) ∧
    (readerStep 12 [1, 2, 3] 5 []).2 = none ∧
    (∃ buf', (readerStep 12 [0, 0, 0, 0, 0, 0, 0, 0] 5 []).2 = some buf') :=
  ⟨reader_short_datagram_raises 12 [1, 2, 3] 5 [],
    (reader_short_datagram_raises 12 [1, 2, 3] 5 []).1 (by decide),
    (reader_short_datagram_raises 12 [0, 0, 0, 0, 0, 0, 0, 0] 5 []).2 (by decide)⟩

/-! ## Claims about the driver loop and the exit codes -/

/-- **C8** (counterexample): the claim says an unexpected error inside
one analysis cycle is logged and the loop continues with subsequent
cycles.  In the code only `KeyboardInterrupt` is caught: with the
trace `[error, ok 5 0 0]` the loop stops at the error with nothing
accumulated and the process terminates abnormally, whereas without the
error cycle the `ok` cycle would have been processed
(`total_sent = 5`); the subsequent cycle is never reached. -/
theorem analyzer_error_cex :
    analyzerLoop none ⟨0, 0, 0, 0⟩ [.error, .ok 5 0 0]
        = (⟨0, 0, 0, 0⟩, .uncaughtError) ∧
      analyzerLoop none ⟨0, 0, 0, 0⟩ [.ok 5 0 0]
        = (⟨1, 5, 0, 0⟩, .stillRunning) ∧
      loopProcExit .uncaughtError = some .uncaught ∧
      ProcExit.uncaught ≠ ProcExit.code 0 := by
  refine ⟨rfl, rfl, rfl, by simp⟩

/-- **C8** (amended): an unexpected error raised inside a single
analysis cycle is not caught (`except KeyboardInterrupt` is the only
handler): it propagates out of the loop immediately - no subsequent
cycle runs, the totals and `analyzed_second` are left as they were -
and the process terminates abnormally instead of printing the
summary. -/
theorem analyzer_error_terminates (limit : Option Nat) (st : LoopState)
    (rest : List CycleOutcome) :
    analyzerLoop limit st (CycleOutcome.error :: rest) = (st, .uncaughtError) ∧
      loopProcExit LoopExit.uncaughtError = some ProcExit.uncaught :=
  ⟨rfl, rfl⟩

/-- The state after one normal cycle (line 186-190: accumulate the
totals, advance `analyzed_second`). -/
def stepState (st : LoopState) (sent lost reorders : Nat) : LoopState :=
  { analyzed_second := st.analyzed_second + 1
    total_sent := st.total_sent + sent
    total_lost := st.total_lost + lost
    total_reorders := st.total_reorders + reorders }

theorem analyzerLoop_ok_some (l : Nat) (st : LoopState)
    (sent lost reorders : Nat) (rest : List CycleOutcome) :
    analyzerLoop (some l) st (CycleOutcome.ok sent lost reorders :: rest)
      = (if st.analyzed_second + 1 ≥ l
          then (stepState st sent lost reorders, .limitReached)
          else analyzerLoop (some l) (stepState st sent lost reorders) rest) :=
  rfl

/-- Running the loop over `n ≥ 1` identical normal cycles with
`test_limit = analyzed_second + n` reaches the limit exactly, with all
the window totals accumulated. -/
theorem analyzerLoop_replicate_ok (sent lost reorders : Nat) : ∀ (n : Nat)
    (l : Nat) (st : LoopState), 0 < n → st.analyzed_second + n = l →
    analyzerLoop (some l) st (List.replicate n (CycleOutcome.ok sent lost reorders))
      = ({ analyzed_second := l,
           total_sent := st.total_sent + n * sent,
           total_lost := st.total_lost + n * lost,
           total_reorders := st.total_reorders + n * reorders }, .limitReached) := by
  intro n
  induction n with
  | zero => intro l st h; omega
  | succ n ih =>
    intro l st _ hl
    rw [List.replicate_succ, analyzerLoop_ok_some]
    rcases Nat.eq_zero_or_pos n with hn | hn
    · subst hn
      rw [if_pos (show st.analyzed_second + 1 ≥ l by omega)]
      have h1 : st.analyzed_second + 1 = l := by omega
      simp [stepState, h1]
    · rw [if_neg (show ¬st.analyzed_second + 1 ≥ l by omega)]
      rw [ih l (stepState st sent lost reorders) hn
        (show (stepState st sent lost reorders).analyzed_second + n = l by
          simp [stepState]; omega)]
      simp only [stepState, Prod.mk.injEq, LoopState.mk.injEq]
      exact ⟨⟨trivial, by ring, by ring, by ring⟩, trivial⟩

/-- **C9** (counterexample): the claim says any handshake reply other
than exactly `"ponghelo"` makes the process exit with code 3.  The
code compares `reply.decode("utf-8")`, and only `socket.timeout` is
caught: a reply consisting of the single byte `0xFF` is not
`"ponghelo"`, yet its UTF-8 decoding raises a `UnicodeDecodeError`
that propagates, terminating the process abnormally - not with exit
code 3. -/
theorem handshake_invalid_utf8_cex :
    handshake (some [255]) = some ProcExit.uncaught ∧
      testRun (some [255]) (some 1) [CycleOutcome.ok 1 0 0]
        = (0, some .uncaught) ∧
      ProcExit.uncaught ≠ ProcExit.code 3 := by
  refine ⟨rfl, rfl, by simp⟩

/-- **C9** (amended): if the handshake reply does not arrive within
the 5-second timeout the process exits with code 2 before the sender
or receiver starts, printing zero window reports; if a reply arrives
that decodes as UTF-8 but is not exactly `"ponghelo"` the process
exits with code 3 (zero reports); a reply that is not valid UTF-8
raises an uncaught `UnicodeDecodeError` (abnormal termination, not
exit code 3); on normal completion after the configured second-count
limit the process exits with code 0 having printed one report per
analyzed second. -/
theorem exit_codes (bs cps : List Nat) (limit : Nat)
    (cycles : List CycleOutcome) (sent lost reorders : Nat)
    (hdec : utf8Decode bs = some cps) (hne : cps ≠ pongheloCodepoints)
    (hl : 0 < limit) :
    testRun none (some limit) cycles = (0, some (.code 2)) ∧
      testRun (some bs) (some limit) cycles = (0, some (.code 3)) ∧
      (∀ bs', utf8Decode bs' = none →
        testRun (some bs') (some limit) cycles = (0, some .uncaught)) ∧
      testRun (some pongheloCodepoints) (some limit)
          (List.replicate limit (CycleOutcome.ok sent lost reorders))
        = (limit, some (.code 0)) := by
  refine ⟨rfl, ?_, ?_, ?_⟩
  · simp [testRun, handshake, hdec, hne]
  · intro bs' h
    simp [testRun, handshake, h]
  · have hp : handshake (some pongheloCodepoints) = none := by decide
    simp only [testRun, hp]
    rw [analyzerLoop_replicate_ok sent lost reorders limit limit ⟨0, 0, 0, 0⟩ hl
      (by simp)]
    rfl

/-- Witness for `exit_codes`: the reply `b"p"` decodes to `"p"`, which
is not `"ponghelo"`, with `limit = 2`. -/
theorem exit_codes_witness :
    testRun none (some 2) [] = (0, some (.code 2)) ∧
      testRun (some [112]) (some 2) [] = (0, some (.code 3)) ∧
      (∀ bs', utf8Decode bs' = none →
        testRun (some bs') (some 2) [] = (0, some .uncaught)) ∧
      testRun (some pongheloCodepoints) (some 2)
          (List.replicate 2 (CycleOutcome.ok 3 1 0))
        = (2, some (.code 0)) :=
  exit_codes [112] [112] 2 [] 3 1 0 (by decide) (by decide) (by decide)

/-! ## Claim C3: codec round trip -/

theorem unpackInt32From_cons (a : Nat) (l : List Nat) (off : Nat) :
    unpackInt32From (a :: l) (off + 1) = unpackInt32From l off := by
  unfold unpackInt32From
  simp only [List.length_cons, List.getD_cons_succ,
    show ∀ k : Nat, off + 1 + k = off + k + 1 from fun k => by omega,
    Nat.add_le_add_iff_right]

theorem unpackInt32From_append4 (pre : List Nat) (hpre : pre.length = 4)
    (l : List Nat) :
    unpackInt32From (pre ++ l) 4 = unpackInt32From l 0 := by
  rcases pre with _ | ⟨t0, pre⟩; · simp at hpre
  rcases pre with _ | ⟨t1, pre⟩; · simp at hpre
  rcases pre with _ | ⟨t2, pre⟩; · simp at hpre
  rcases pre with _ | ⟨t3, pre⟩; · simp at hpre
  rcases pre with _ | ⟨t4, pre⟩
  · show unpackInt32From (t0 :: t1 :: t2 :: t3 :: l) (3 + 1) = unpackInt32From l 0
    rw [unpackInt32From_cons]
    show unpackInt32From (t1 :: t2 :: t3 :: l) (2 + 1) = unpackInt32From l 0
    rw [unpackInt32From_cons]
    show unpackInt32From (t2 :: t3 :: l) (1 + 1) = unpackInt32From l 0
    rw [unpackInt32From_cons]
    show unpackInt32From (t3 :: l) (0 + 1) = unpackInt32From l 0
    rw [unpackInt32From_cons]
  · simp at hpre

theorem unpackInt32From_quad (b0 b1 b2 b3 : Nat) (post : List Nat) :
    unpackInt32From (b0 :: b1 :: b2 :: b3 :: post) 0
      = some (if b0 + 256 * b1 + 2 ^ 16 * b2 + 2 ^ 24 * b3 < 2 ^ 31
          then ((b0 + 256 * b1 + 2 ^ 16 * b2 + 2 ^ 24 * b3 : Nat) : Int)
          else ((b0 + 256 * b1 + 2 ^ 16 * b2 + 2 ^ 24 * b3 : Nat) : Int)
            - 2 ^ 32) := by
  unfold unpackInt32From
  rw [if_pos (by simp only [List.length_cons]; omega)]
  rfl

/-- Unpacking the four packed bytes of an in-range signed 32-bit
integer (followed by anything) recovers the integer. -/
theorem unpack_pack (seq : Int) (h1 : -2 ^ 31 ≤ seq) (h2 : seq < 2 ^ 31)
    (post : List Nat) :
    unpackInt32From (packInt32 seq ++ post) 0 = some seq := by
  simp only [packInt32, List.cons_append, List.nil_append]
  rw [unpackInt32From_quad]
  generalize hg : (seq % ((2 : Int) ^ 32)).toNat = m
  have hrec : m % 256 + 256 * (m / 256 % 256) + 2 ^ 16 * (m / 2 ^ 16 % 256)
      + 2 ^ 24 * (m / 2 ^ 24 % 256) = m := by omega
  rw [hrec]
  split_ifs with hlt
  · have : (m : Int) = seq := by omega
    rw [this]
  · have : (m : Int) - 2 ^ 32 = seq := by omega
    rw [this]

theorem packInt32_length (seq : Int) : (packInt32 seq).length = 4 := by
  simp [packInt32]

/-- **C3**: for every 4-byte tag, every sequence id representable as a
signed 32-bit integer and every packet size ≥ 8, encoding a packet
with that tag and id into a buffer of exactly that size and then
decoding the buffer with the same expected tag and expected size
succeeds and yields the id back. -/
theorem codec_round_trip (tag : List Nat) (seq : Int) (size : Nat)
    (htag : tag.length = 4) (h1 : -2 ^ 31 ≤ seq) (h2 : seq < 2 ^ 31)
    (hsize : 8 ≤ size) :
    ∃ buf, encode tag seq size = some buf ∧ buf.length = size ∧
      decode buf tag size = some seq := by
  have hbuffer : setSlice (List.replicate size 0) 0 tag
      = tag ++ List.replicate (size - 4) (0 : Nat) := by
    unfold setSlice
    rw [List.take_zero, List.nil_append, Nat.zero_add, htag,
      List.drop_replicate]
  have hblen : (tag ++ List.replicate (size - 4) (0 : Nat)).length = size := by
    simp [htag]
    omega
  have henc : encode tag seq size
      = some (setSlice (tag ++ List.replicate (size - 4) (0 : Nat)) 4
          (packInt32 seq)) := by
    unfold encode
    rw [hbuffer, if_pos ⟨h1, h2, by rw [hblen]; omega⟩]
  have hslice : setSlice (tag ++ List.replicate (size - 4) (0 : Nat)) 4
      (packInt32 seq)
      = tag ++ (packInt32 seq ++ List.replicate (size - 8) (0 : Nat)) := by
    unfold setSlice
    rw [packInt32_length, List.append_assoc]
    have htake : (tag ++ List.replicate (size - 4) (0 : Nat)).take 4 = tag := by
      rw [← htag, List.take_left]
    have hdrop : (tag ++ List.replicate (size - 4) (0 : Nat)).drop (4 + 4)
        = List.replicate (size - 8) (0 : Nat) := by
      rw [show (4 : Nat) + 4 = tag.length + 4 from by rw [htag],
        List.drop_append, List.drop_replicate]
      congr 1
    rw [htake, hdrop]
  refine ⟨tag ++ (packInt32 seq ++ List.replicate (size - 8) (0 : Nat)),
    by rw [henc, hslice], ?_, ?_⟩
  · simp [htag, packInt32_length]
    omega
  · unfold decode
    rw [if_pos ⟨by simp [htag, packInt32_length]; omega,
      by rw [← htag, List.take_left]⟩]
    rw [unpackInt32From_append4 tag htag, unpack_pack seq h1 h2]

/-- Witness for `codec_round_trip`: tag `"pong"`, id 5, size 12. -/
theorem codec_round_trip_witness :
    ∃ buf, encode pongTag 5 12 = some buf ∧ buf.length = 12 ∧
      decode buf pongTag 12 = some 5 :=
  codec_round_trip pongTag 5 12 (by decide) (by decide) (by decide) (by decide)

/-! ## Claim C7: eviction -/

/-- In a dict (whose keys are distinct), two entries with the same key
are the same entry. -/
theorem entry_eq_of_key_eq (b : Buf) (h : (bufKeys b).Nodup)
    (p q : Int × Int) (hp : p ∈ b) (hq : q ∈ b) (hk : p.1 = q.1) : p = q :=
  List.inj_on_of_nodup_map (by simpa [bufKeys] using h) hp hq hk

theorem mem_cleanupBuf_iff (buf : Buf) (tEnd : Int)
    (h : (bufKeys buf).Nodup) (p : Int × Int) :
    p ∈ cleanupBuf buf tEnd ↔ p ∈ buf ∧ tEnd ≤ p.2 := by
  unfold cleanupBuf
  rw [List.mem_filter]
  constructor
  · rintro ⟨hp, hc⟩
    refine ⟨hp, ?_⟩
    by_contra hlt
    rw [Bool.not_eq_true', List.contains_eq_any_beq] at hc
    have hmem : p.1 ∈ (buf.filter (fun q => decide (q.2 < tEnd))).map Prod.fst :=
      List.mem_map_of_mem Prod.fst
        (List.mem_filter.mpr ⟨hp, by simpa using by omega⟩)
    have : ((buf.filter (fun q => decide (q.2 < tEnd))).map Prod.fst).any
        (fun x => p.1 == x) = true := by
      rcases List.mem_map.mp hmem with ⟨q, hq, hq1⟩
      exact List.any_eq_true.mpr ⟨p.1, hmem, by simp⟩
    rw [this] at hc
    exact Bool.noConfusion hc
  · rintro ⟨hp, hge⟩
    refine ⟨hp, ?_⟩
    rw [Bool.not_eq_true']
    by_contra hc
    rw [Bool.not_eq_false] at hc
    have hmem : p.1 ∈ (buf.filter (fun q => decide (q.2 < tEnd))).map Prod.fst := by
      simpa using hc
    rcases List.mem_map.mp hmem with ⟨q, hq, hq1⟩
    have hqb := List.mem_filter.mp hq
    have : p = q := entry_eq_of_key_eq buf h p q hp hqb.1 hq1.symm
    subst this
    have : p.2 < tEnd := by simpa using hqb.2
    omega

/-- **C7**: after `analyze_range` on window `[s, e)`, neither
cumulative snapshot contains an entry with timestamp below `e`
(matched or not), and every entry with timestamp at least `e` is still
present with its timestamp unchanged. -/
theorem analyze_range_eviction (wb rb : Buf) (s e : Int)
    (hw : (bufKeys wb).Nodup) (hr : (bufKeys rb).Nodup) (p q : Int × Int) :
    (p ∈ (analyze_range wb rb s e).write_buf ↔ p ∈ wb ∧ e ≤ p.2) ∧
      (q ∈ (analyze_range wb rb s e).read_buf ↔ q ∈ rb ∧ e ≤ q.2) :=
  ⟨by simpa [analyze_range] using mem_cleanupBuf_iff wb e hw p,
    by simpa [analyze_range] using mem_cleanupBuf_iff rb e hr q⟩

/-- Witness for `analyze_range_eviction`: the send entry at time
2000000005 survives the analysis of window `[0, 10^9)` unchanged,
while the entries at times 5 and 999 are evicted. -/
theorem analyze_range_eviction_witness :
    ((2, 2000000005) ∈ (analyze_range [(0, 5), (2, 2000000005)] [(0, 999)]
        0 1000000000).write_buf ↔
      ((2 : Int), (2000000005 : Int)) ∈ [((0 : Int), (5 : Int)),
        (2, 2000000005)] ∧ (1000000000 : Int) ≤ 2000000005) ∧
      ((0, 999) ∈ (analyze_range [(0, 5), (2, 2000000005)] [(0, 999)]
          0 1000000000).read_buf ↔
        ((0 : Int), (999 : Int)) ∈ [((0 : Int), (999 : Int))] ∧
          (1000000000 : Int) ≤ 999) :=
  analyze_range_eviction [(0, 5), (2, 2000000005)] [(0, 999)] 0 1000000000
    (by decide) (by decide) (2, 2000000005) (0, 999)

/-! ## Claim C4: sent/lost accounting and window uniqueness -/

theorem sentInWindow_eq_pingInRange (wb : Buf) (s e : Int) :
    sentInWindow wb s e = pingInRange wb s e := by
  unfold sentInWindow pingInRange
  congr 1
  funext p
  rw [Bool.decide_and]

theorem pingPongInRange_length (wb rb : Buf) (s e : Int) :
    (pingPongInRange wb rb s e).length = (matchedInWindow wb rb s e).length := by
  unfold pingPongInRange matchedInWindow
  rw [sentInWindow_eq_pingInRange]
  generalize pingInRange wb s e = l
  induction l with
  | nil => rfl
  | cons p rest ih =>
    by_cases hc : p.1 ∈ bufKeys rb
    · rcases Option.isSome_iff_exists.mp
        ((bufFind_isSome_iff rb p.1).mpr hc) with ⟨w, hw⟩
      simp only [List.filterMap_cons, List.filter_cons, hw]
      rw [if_pos (by simpa using hc)]
      simpa using ih
    · have hnone : bufFind rb p.1 = none := (bufFind_eq_none_iff rb p.1).mpr hc
      simp only [List.filterMap_cons, List.filter_cons, hnone]
      rw [if_neg (by simpa using hc)]
      exact ih

/-- Every timestamp at or after the epoch lies in exactly one
one-second analysis window. -/
theorem window_unique (T0 ts : Int) (hts : T0 ≤ ts) :
    ∃! k : Nat, windowStart T0 k ≤ ts ∧ ts < windowStart T0 (k + 1) := by
  refine ⟨(ts - T0).toNat / 1000000000, ⟨?_, ?_⟩, ?_⟩
  · unfold windowStart
    omega
  · unfold windowStart
    omega
  · rintro k' ⟨h1, h2⟩
    unfold windowStart at h1 h2
    omega

theorem mem_lostInWindow_iff (wb rb : Buf) (a b : Int) (p : Int × Int)
    (hp : p ∈ wb) (hk : ¬p.1 ∈ bufKeys rb) :
    p ∈ lostInWindow wb rb a b ↔ a ≤ p.2 ∧ p.2 < b := by
  unfold lostInWindow sentInWindow
  rw [List.mem_filter, List.mem_filter]
  constructor
  · rintro ⟨⟨_, hin⟩, _⟩
    simpa using hin
  · rintro ⟨ha, hb⟩
    exact ⟨⟨hp, by simpa using And.intro ha hb⟩, by simpa using hk⟩

/-- **C4**: `num_sent` is the number of send entries with timestamp in
`[s, e)`; `num_lost` is `num_sent` minus the number of those entries
whose id appears in the receive snapshot, with no truncation
(`num_lost + num_matched = num_sent` always); and a sent entry whose
id never appears in the receive snapshot is counted as lost in exactly
one window - the one containing its send timestamp. -/
theorem analyze_range_sent_lost (wb rb : Buf) (s e : Int) (T0 : Int)
    (p : Int × Int) :
    (analyze_range wb rb s e).num_sent = (sentInWindow wb s e).length ∧
      (analyze_range wb rb s e).num_lost
        = (analyze_range wb rb s e).num_sent
          - (matchedInWindow wb rb s e).length ∧
      (analyze_range wb rb s e).num_lost + (matchedInWindow wb rb s e).length
        = (analyze_range wb rb s e).num_sent ∧
      (p ∈ wb → ¬p.1 ∈ bufKeys rb → T0 ≤ p.2 →
        ∃! k : Nat, p ∈ lostInWindow wb rb (windowStart T0 k)
          (windowStart T0 (k + 1))) := by
  have hmle : (pingPongInRange wb rb s e).length
      ≤ (pingInRange wb s e).length :=
    List.length_filterMap_le _ _
  refine ⟨?_, ?_, ?_, ?_⟩
  · simp only [analyze_range, sentInWindow_eq_pingInRange]
  · simp only [analyze_range, pingPongInRange_length]
  · simp only [analyze_range, pingPongInRange_length wb rb s e ▸ hmle]
    rw [← pingPongInRange_length]
    omega
  · intro hp hk hts
    exact (existsUnique_congr (fun k =>
      (mem_lostInWindow_iff wb rb (windowStart T0 k) (windowStart T0 (k + 1))
        p hp hk).symm)).mp (window_unique T0 p.2 hts)

/-- Witness for `analyze_range_sent_lost`: one send entry at time 5,
empty receive snapshot, window `[0, 10^9)`, epoch 0. -/
theorem analyze_range_sent_lost_witness :
    (analyze_range [((0 : Int), (5 : Int))] [] 0 1000000000).num_sent
        = (sentInWindow [((0 : Int), (5 : Int))] 0 1000000000).length ∧
      (analyze_range [((0 : Int), (5 : Int))] [] 0 1000000000).num_lost
        = (analyze_range [((0 : Int), (5 : Int))] [] 0 1000000000).num_sent
          - (matchedInWindow [((0 : Int), (5 : Int))] [] 0 1000000000).length ∧
      (analyze_range [((0 : Int), (5 : Int))] [] 0 1000000000).num_lost
          + (matchedInWindow [((0 : Int), (5 : Int))] [] 0 1000000000).length
        = (analyze_range [((0 : Int), (5 : Int))] [] 0 1000000000).num_sent ∧
      ∃! k : Nat, ((0 : Int), (5 : Int)) ∈ lostInWindow
        [((0 : Int), (5 : Int))] [] (windowStart 0 k) (windowStart 0 (k + 1)) := by
  have h := analyze_range_sent_lost [((0 : Int), (5 : Int))] [] 0 1000000000 0
    ((0 : Int), (5 : Int))
  exact ⟨h.1, h.2.1, h.2.2.1, h.2.2.2 (by decide) (by decide) (by decide)⟩

/-! ## Claim C5: the reorder metric -/

/-- **C5**: when the send snapshot lists entries in send order
(timestamps strictly increasing along dict insertion order, as the
writer produces them), the matched list `ping_pong_in_range` is in
send order too, and the code's reorder count equals the spec's count:
the number of adjacent pairs in the send-order list of matched ids
whose positions in the global arrival-insertion order
`list(read_buf.keys())` are inverted.  In particular matched ids
arriving in send order yield count 0, and a single adjacent swap in
arrival order versus send order yields count 1. -/
theorem analyze_range_reorders (wb rb : Buf) (s e : Int)
    (hsend : wb.Pairwise (fun p q => p.2 < q.2)) :
    (pingPongInRange wb rb s e).Pairwise (fun m m' => m.2.1 < m'.2.1) ∧
      (analyze_range wb rb s e).num_reorders
        = specReorderCount ((pingPongInRange wb rb s e).map (fun m => m.1))
            (bufKeys rb) ∧
      (analyze_range [(0, 100), (1, 200), (2, 300)]
          [(0, 1000), (1, 1100), (2, 1200)] 0 1000000000).num_reorders = 0 ∧
      (analyze_range [(0, 100), (1, 200), (2, 300)]
          [(1, 1100), (0, 1150), (2, 1200)] 0 1000000000).num_reorders = 1 := by
  refine ⟨?_, ?_, by decide, by decide⟩
  · unfold pingPongInRange pingInRange
    refine List.Pairwise.filterMap _ ?_ (List.Pairwise.filter _ hsend)
    intro a a' hr b hb b' hb'
    rcases hfa : bufFind rb a.1 with _ | w
    · simp only [hfa] at hb
      cases hb
    · rcases hfa' : bufFind rb a'.1 with _ | w'
      · simp only [hfa'] at hb'
        cases hb'
      · simp only [hfa, Option.mem_def, Option.some.injEq] at hb
        simp only [hfa', Option.mem_def, Option.some.injEq] at hb'
        subst hb
        subst hb'
        exact hr
  · simp only [analyze_range, specReorderCount, numReorders, gt_iff_lt]

/-- Witness for `analyze_range_reorders` at the swapped-arrival
snapshot (send order 0,1,2; arrival-insertion order 1,0,2). -/
theorem analyze_range_reorders_witness :
    (pingPongInRange [(0, 100), (1, 200), (2, 300)]
        [(1, 1100), (0, 1150), (2, 1200)] 0 1000000000).Pairwise
        (fun m m' => m.2.1 < m'.2.1) ∧
      (analyze_range [(0, 100), (1, 200), (2, 300)]
          [(1, 1100), (0, 1150), (2, 1200)] 0 1000000000).num_reorders
        = specReorderCount ((pingPongInRange [(0, 100), (1, 200), (2, 300)]
            [(1, 1100), (0, 1150), (2, 1200)] 0 1000000000).map (fun m => m.1))
            (bufKeys [(1, 1100), (0, 1150), (2, 1200)]) ∧
      (analyze_range [(0, 100), (1, 200), (2, 300)]
          [(0, 1000), (1, 1100), (2, 1200)] 0 1000000000).num_reorders = 0 ∧
      (analyze_range [(0, 100), (1, 200), (2, 300)]
          [(1, 1100), (0, 1150), (2, 1200)] 0 1000000000).num_reorders = 1 :=
  analyze_range_reorders [(0, 100), (1, 200), (2, 300)]
    [(1, 1100), (0, 1150), (2, 1200)] 0 1000000000 (by decide)

/-! ## Claim C6: latency statistics -/

theorem meanPingMs_isSome (m : List (Int × Int × Int × Int)) :
    (meanPingMs m).isSome = true ↔ 1 ≤ m.length := by
  unfold meanPingMs
  by_cases h : m.length > 0
  · rw [if_pos h]
    simp only [Option.isSome_some, true_iff]
    omega
  · rw [if_neg h]
    simp only [Option.isSome_none, Bool.false_eq_true, false_iff]
    omega

theorem stddevSqPingMs_isSome (m : List (Int × Int × Int × Int)) :
    (stddevSqPingMs m).isSome = true ↔ 2 ≤ m.length := by
  unfold stddevSqPingMs
  by_cases h : m.length > 1
  · rw [if_pos h]
    simp only [Option.isSome_some, true_iff]
    omega
  · rw [if_neg h]
    simp only [Option.isSome_none, Bool.false_eq_true, false_iff]
    omega

theorem maxPingMs_isSome (m : List (Int × Int × Int × Int)) :
    (maxPingMs m).isSome = true ↔ 1 ≤ m.length := by
  unfold maxPingMs
  by_cases h : m.length > 0
  · rw [if_pos h, Option.isSome_iff_ne_none]
    have hne : ((durationsNs m).map (fun (d : Int) => (d : ℚ) / 1000000)) ≠ [] := by
      have hlen : ((durationsNs m).map (fun (d : Int) => (d : ℚ) / 1000000)).length
          = m.length := by
        rw [durationsNs, List.length_map, List.length_map]
      intro hnil
      rw [hnil] at hlen
      simp only [List.length_nil] at hlen
      omega
    constructor
    · intro _
      omega
    · intro _ hnone
      exact hne (List.max?_eq_none_iff.mp hnone)
  · rw [if_neg h]
    simp only [Option.isSome_none, Bool.false_eq_true, false_iff]
    omega

theorem minPingMs_isSome (m : List (Int × Int × Int × Int)) :
    (minPingMs m).isSome = true ↔ 1 ≤ m.length := by
  unfold minPingMs
  by_cases h : m.length > 0
  · rw [if_pos h, Option.isSome_iff_ne_none]
    have hne : ((durationsNs m).map (fun (d : Int) => (d : ℚ) / 1000000)) ≠ [] := by
      have hlen : ((durationsNs m).map (fun (d : Int) => (d : ℚ) / 1000000)).length
          = m.length := by
        rw [durationsNs, List.length_map, List.length_map]
      intro hnil
      rw [hnil] at hlen
      simp only [List.length_nil] at hlen
      omega
    constructor
    · intro _
      omega
    · intro _ hnone
      exact hne (List.min?_eq_none_iff.mp hnone)
  · rw [if_neg h]
    simp only [Option.isSome_none, Bool.false_eq_true, false_iff]
    omega

/-- **C6**: the window's mean, min and max latency (milliseconds) are
reported exactly when there is at least one matched sample, the
population standard deviation exactly when there are at least two
("n/a" otherwise); and on matched latencies of 5, 10 and 15 ms the
reported values are mean = 10 ms, min = 5 ms, max = 15 ms, and a
population standard deviation strictly between 4.08 and 4.09 ms
(its square is 50/3 ms²). -/
theorem analyze_range_stats (wb rb : Buf) (s e : Int) :
    ((analyze_range wb rb s e).mean_ping.isSome = true
        ↔ 1 ≤ (pingPongInRange wb rb s e).length) ∧
      ((analyze_range wb rb s e).min_ping.isSome = true
        ↔ 1 ≤ (pingPongInRange wb rb s e).length) ∧
      ((analyze_range wb rb s e).max_ping.isSome = true
        ↔ 1 ≤ (pingPongInRange wb rb s e).length) ∧
      ((analyze_range wb rb s e).stddev_sq_ping.isSome = true
        ↔ 2 ≤ (pingPongInRange wb rb s e).length) ∧
      (analyze_range [(0, 0), (1, 100), (2, 200)]
          [(0, 5000000), (1, 10000100), (2, 15000200)] 0 1000000000).mean_ping
        = some 10 ∧
      (analyze_range [(0, 0), (1, 100), (2, 200)]
          [(0, 5000000), (1, 10000100), (2, 15000200)] 0 1000000000).min_ping
        = some 5 ∧
      (analyze_range [(0, 0), (1, 100), (2, 200)]
          [(0, 5000000), (1, 10000100), (2, 15000200)] 0 1000000000).max_ping
        = some 15 ∧
      (analyze_range [(0, 0), (1, 100), (2, 200)]
          [(0, 5000000), (1, 10000100), (2, 15000200)] 0 1000000000).stddev_sq_ping
        = some (50 / 3) ∧
      ((408 : ℚ) / 100) ^ 2 < 50 / 3 ∧ ((50 : ℚ) / 3) < ((409 : ℚ) / 100) ^ 2 := by
  refine ⟨meanPingMs_isSome _, minPingMs_isSome _, maxPingMs_isSome _,
    stddevSqPingMs_isSome _, ?_, ?_, ?_, ?_, by norm_num, by norm_num⟩ <;>
  norm_num [analyze_range, meanPingMs, minPingMs, maxPingMs, stddevSqPingMs,
    pingPongInRange, pingInRange, durationsNs, bufFind,
    List.filterMap_cons, List.filter_cons, List.min?, List.max?]

end UdpTool
